import Mathlib

/-!
# Verification of the inspectpack bundle-analysis core

Shallow embedding of the inspectpack analysis engine and its runtime
manifest validator, with theorems settling the specification claims.

The repository ships the io-ts runtime validator
(`src/lib/interfaces/webpack-stats.ts`) and its smoke tests; the analysis
components themselves (ModuleTreeFlattener, SizeEstimator,
DuplicateGrouper, AnalysisEngine, ResultCache) are specified in the
design document but their sources are not part of this snapshot, so they
are modelled from the spec, faithful to its words.
-/

namespace Inspectpack

/-- The `type` field of an emitted Module record: `code` (has literal
source), `synthetic` (manifest-only entry with no retrievable source),
`duplicate` (marked after grouping). -/
inductive ModuleType where
  | code
  | synthetic
  | duplicate
deriving DecidableEq, Repr

/-- Modelled from the spec: the structured-manifest module tree
(design notes §9 direct a tagged variant — `Leaf{source,size}`,
`Container{children}`, `Synthetic{size}`).  Leaf and synthetic entries
carry the optional manifest-declared id used by identifier assignment;
a container node has no independent emitted record of its own. -/
inductive ModuleNode where
  | leaf (identifier : String) (declaredId : Option String) (size : Nat) (source : String)
  | synthetic (identifier : String) (declaredId : Option String) (size : Nat)
  | container (identifier : String) (size : Nat) (children : List ModuleNode)

/-- A flattened module record before identifier assignment. -/
structure PreModule where
  declaredId : Option String
  identifier : String
  size : Nat
  type : ModuleType
  source : Option String
deriving DecidableEq, Repr

/-- `true` exactly on container nodes (those with a nested `modules`
array). -/
def ModuleNode.isContainer : ModuleNode → Bool
  | .container _ _ _ => true
  | _ => false

mutual

/-- Modelled from the spec: ModuleTreeFlattener on one manifest node —
depth-first, pre-order; a container node's own entry is not emitted,
only leaf and synthetic nodes become records. -/
def flattenNode : ModuleNode → List PreModule
  | .leaf ident did sz src => [⟨did, ident, sz, .code, some src⟩]
  | .synthetic ident did sz => [⟨did, ident, sz, .synthetic, none⟩]
  | .container _ _ cs => flattenList cs

/-- Modelled from the spec: ModuleTreeFlattener on a manifest's module
array, emitting each node's records in order. -/
def flattenList : List ModuleNode → List PreModule
  | [] => []
  | n :: ns => flattenNode n ++ flattenList ns

end

mutual

/-- The leaf and synthetic nodes of one manifest node, in depth-first
pre-order; containers contribute only their descendants. -/
def emittable : ModuleNode → List ModuleNode
  | .leaf ident did sz src => [.leaf ident did sz src]
  | .synthetic ident did sz => [.synthetic ident did sz]
  | .container _ _ cs => emittableList cs

/-- The leaf and synthetic nodes of a manifest's module array, in
depth-first pre-order. -/
def emittableList : List ModuleNode → List ModuleNode
  | [] => []
  | n :: ns => emittable n ++ emittableList ns

end

/-- The record a leaf or synthetic node flattens to (value on container
nodes is irrelevant: they are never emitted). -/
def preOf : ModuleNode → PreModule
  | .leaf ident did sz src => ⟨did, ident, sz, .code, some src⟩
  | .synthetic ident did sz => ⟨did, ident, sz, .synthetic, none⟩
  | .container ident _ _ => ⟨none, ident, 0, .code, none⟩

/-- Little-endian decimal digits of `n`, with explicit fuel so the
definition is structural (kernel-evaluable).  `decDigits n n` is fully
accurate because a number needs at most `n` digit extractions. -/
def decDigits : Nat → Nat → List Nat
  | 0, _ => []
  | fuel + 1, n => if n = 0 then [] else n % 10 :: decDigits fuel (n / 10)

/-- Value of a little-endian decimal digit list (left inverse used for
injectivity of the decimal rendering). -/
def digitsVal : List Nat → Nat
  | [] => 0
  | d :: ds => d + 10 * digitsVal ds

/-- Decimal numeral string of a natural number (the flattener renders
positional ids as decimal strings). -/
def decStr (n : Nat) : String :=
  if n = 0 then "0" else ⟨((decDigits n n).reverse.map Nat.digitChar)⟩

/-- Numeric value of a decimal digit character ('0'–'9'). -/
def digitCharVal (c : Char) : Nat := c.toNat - 48

/-- Modelled from the spec: `baseName` derivation — strip the
resolution-disambiguation suffix from `identifier` (everything from the
first space on), so two on-disk copies of the same logical file show the
same baseName.  The exact normalization is a policy choice per design
notes §9. -/
def baseNameOf (identifier : String) : String :=
  ⟨identifier.data.takeWhile (fun c => c ≠ ' ')⟩

/-- One unit of bundled code in an AnalysisResult. -/
structure Module where
  id : String
  identifier : String
  baseName : String
  size : Nat
  type : ModuleType
  source : Option String
  minifiedSize : Option Nat := none
  gzipSize : Option Nat := none
deriving DecidableEq, Repr

/-- Modelled from the spec: identifier assignment for one record —
the manifest-declared id verbatim when present, else the zero-based
emission index rendered as a decimal string. -/
def toModule (idx : Nat) (pm : PreModule) : Module :=
  { id := pm.declaredId.getD (decStr idx)
    identifier := pm.identifier
    baseName := baseNameOf pm.identifier
    size := pm.size
    type := pm.type
    source := pm.source }

/-- Modelled from the spec: assign ids to the flattened records in
emission order, starting at index `idx`. -/
def assignIds : Nat → List PreModule → List Module
  | _, [] => []
  | idx, pm :: pms => toModule idx pm :: assignIds (idx + 1) pms

/-- Modelled from the spec: the full ModuleTreeFlattener — depth-first
pre-order flattening followed by identifier assignment. -/
def flattenModules (ms : List ModuleNode) : List Module :=
  assignIds 0 (flattenList ms)

/-- Collapse every maximal run of whitespace into one space
(`prevWs` records whether the previous character was whitespace).
Structural so the kernel can evaluate it. -/
def collapseWsAux (prevWs : Bool) : List Char → List Char
  | [] => []
  | c :: cs =>
    if c.isWhitespace then
      if prevWs then collapseWsAux true cs
      else ' ' :: collapseWsAux true cs
    else c :: collapseWsAux false cs

/-- Modelled from the spec: source normalization for duplicate hashing —
whitespace-only differences are stripped (runs of whitespace collapse to
a single space); the exact normalization is a policy choice per design
notes §9. -/
def normSource (s : String) : String :=
  ⟨collapseWsAux false s.data⟩

/-- Modelled from the spec: the duplicate-grouping key of a module —
`(baseName, normalized source)`; modules with no source (synthetic) and
modules with empty source never participate in grouping. -/
def dupKey (m : Module) : Option (String × String) :=
  match m.source with
  | none => none
  | some s => if s = "" then none else some (m.baseName, normSource s)

/-- A set of modules sharing normalized content: a representative
baseName, the members in flattened order, and the computed wasted
bytes. -/
structure DuplicateGroup where
  baseName : String
  members : List Module
  wastedBytes : Nat
deriving DecidableEq, Repr

/-- Modelled from the spec: DuplicateGrouper — group modules by the
`(baseName, normalized source)` key, in first-occurrence order, members
in flattened order; only classes of two or more are duplicate groups;
wasted bytes = `(count - 1) * size`. -/
def dupGroups (ms : List Module) : List DuplicateGroup :=
  ((ms.filterMap dupKey).dedup).filterMap (fun k =>
    let mem := ms.filter (fun m => dupKey m = some k)
    if 2 ≤ mem.length then
      some ⟨k.1, mem, (mem.length - 1) * ((mem.head?.map Module.size).getD 0)⟩
    else none)

/-- Modelled from the spec: whether a module belongs to some duplicate
group of the list. -/
def isDuplicated (ms : List Module) (m : Module) : Bool :=
  match dupKey m with
  | none => false
  | some k => 2 ≤ (ms.filter (fun m2 => dupKey m2 = some k)).length

/-- Modelled from the spec: DuplicateGrouper marks each duplicated
module's `type` as `duplicate`. -/
def markDuplicates (ms : List Module) : List Module :=
  ms.map (fun m => if isDuplicated ms m then { m with type := .duplicate } else m)

/-- Modelled from the spec: a stand-in pure minifier — minification is a
pure function of `source` (here: drop all whitespace). -/
def minify (s : String) : String :=
  ⟨s.data.filter (fun c => !c.isWhitespace)⟩

/-- Modelled from the spec: a stand-in pure compressed-length function
of a payload string. -/
def gzipLen (s : String) : Nat := s.length

/-- Modelled from the spec: SizeEstimator on one module — `size` always
set by flattening; `minifiedSize` only if `minified` is requested (a
module with no source gets `minifiedSize = size`); `gzipSize` only if
`gzip` is requested (no source: computed over a zero-length payload). -/
def estimateModule (minified gzip : Bool) (m : Module) : Module :=
  { m with
    minifiedSize :=
      if minified then
        some (match m.source with
              | some s => (minify s).length
              | none => m.size)
      else none
    gzipSize :=
      if gzip then
        some (match m.source with
              | some s => gzipLen s
              | none => gzipLen "")
      else none }

/-- The assembled result of one analysis. -/
structure AnalysisResult where
  sizes : List Module
  duplicates : List DuplicateGroup
  numFilesWithDuplicates : Nat
deriving DecidableEq, Repr

/-- Modelled from the spec: AnalysisEngine — flatten, estimate sizes,
group duplicates, mark duplicated modules, and assemble `meta`
(`numFilesWithDuplicates` = number of distinct baseNames having at
least one duplicate group). -/
def analyze (minified gzip : Bool) (ms : List ModuleNode) : AnalysisResult :=
  let sized := (flattenModules ms).map (estimateModule minified gzip)
  let groups := dupGroups sized
  { sizes := markDuplicates sized
    duplicates := groups
    numFilesWithDuplicates := ((groups.map DuplicateGroup.baseName).dedup).length }

/-- An analysis request as seen by the result cache. -/
structure CacheRequest where
  op : String
  code : String
  minified : Bool
  gzip : Bool
deriving DecidableEq, Repr

/-- Modelled from the spec: the deterministic fingerprint over
`{ operationKind, code, normalizedOptions }` (the hash is modelled as a
deterministic encoding; only determinism is relied upon). -/
def fingerprint (r : CacheRequest) : String :=
  r.op ++ ":" ++ (if r.minified then "m1" else "m0")
       ++ (if r.gzip then "g1" else "g0") ++ ":" ++ r.code

/-- Modelled from the spec: one ResultCache call — a fingerprint hit
short-circuits to the stored result (engine not invoked, third component
counts engine invocations); a miss runs the engine and writes the
store. -/
def cacheCall (engine : CacheRequest → AnalysisResult)
    (st : List (String × AnalysisResult)) (r : CacheRequest) :
    AnalysisResult × List (String × AnalysisResult) × Nat :=
  match st.lookup (fingerprint r) with
  | some res => (res, st, 0)
  | none => ((engine r), ((fingerprint r, engine r) :: st), 1)

/-- Modelled from the spec: single-flight coalescing — arrivals whose
fingerprint is already in flight attach to the existing computation;
otherwise a new computation is admitted.  Returns each caller's result
(every coalesced caller receives the one in-flight computation's result)
and the number of computations started. -/
def sfRun {α : Type} (engine : String → α) :
    List String → List String → List α × Nat
  | _, [] => ([], 0)
  | inflight, fp :: rest =>
    if fp ∈ inflight then
      let out := sfRun engine inflight rest
      (engine fp :: out.1, out.2)
    else
      let out := sfRun engine (fp :: inflight) rest
      (engine fp :: out.1, out.2 + 1)

/-- Modelled from the spec: process a batch of concurrent requests
(given by fingerprint) against an empty in-flight map. -/
def singleFlight {α : Type} (engine : String → α) (reqs : List String) :
    List α × Nat :=
  sfRun engine [] reqs

/-- Modelled from the spec: one fragment of raw concatenated bundle
text — either a well-formed module boundary (identifier and source) or a
malformed stretch of text. -/
inductive Fragment where
  | wellFormed (identifier : String) (source : String)
  | malformed (text : String)
deriving DecidableEq, Repr

/-- `true` on the malformed fragments. -/
def Fragment.isMalformed : Fragment → Bool
  | .malformed _ => true
  | .wellFormed _ _ => false

/-- Modelled from the spec: `ParseError` carries the offending
fragment's position for diagnostics. -/
structure ParseError where
  position : Nat
  fragment : String
deriving DecidableEq, Repr

/-- Modelled from the spec: scanning raw bundle text (input form B) —
each well-formed fragment yields one module record; a malformed fragment
fails the whole parse with a `ParseError` at its position, never
silently skipped. -/
def parseFragments : Nat → List Fragment → Except ParseError (List PreModule)
  | _, [] => .ok []
  | pos, .malformed txt :: _ => .error ⟨pos, txt⟩
  | pos, .wellFormed ident src :: rest =>
    match parseFragments (pos + 1) rest with
    | .error e => .error e
    | .ok pms => .ok (⟨none, ident, src.length, .code, some src⟩ :: pms)

/-- A raw manifest module object as the io-ts runtime validator sees it
(`src/lib/interfaces/webpack-stats.ts`): the base fields `identifier`,
`size`, `chunks` plus the optional `source` and `modules` fields
(io-ts `t.type` checks only the listed fields and ignores extras, so
presence of the optional fields is what the unions discriminate on). -/
inductive RawNode where
  | mk (identifier : String) (size : Nat) (chunks : List (String ⊕ Nat))
       (source : Option String) (modules : Option (List RawNode))

/-- The `source` field of a raw node. -/
def RawNode.source : RawNode → Option String
  | .mk _ _ _ src _ => src

/-- The `modules` field of a raw node. -/
def RawNode.modules : RawNode → Option (List RawNode)
  | .mk _ _ _ _ ms => ms

/-- `RWebpackStatsModuleSource`: base plus a `source` field (io-ts
`t.intersection` of the base `t.type` and `t.type({source})`). -/
def validSource (n : RawNode) : Bool := n.source.isSome

/-- `RWebpackStatsModuleSynthetic`: just an alias of the base type, so
any raw node validates (io-ts `t.type` ignores extra fields). -/
def validSynthetic (_ : RawNode) : Bool := true

mutual

/-- `RWebpackStatsModuleModules`: base plus a `modules` array each of
whose elements validates against `t.union([RWebpackStatsModuleSource,
self])`. -/
def validModules : RawNode → Bool
  | .mk _ _ _ _ none => false
  | .mk _ _ _ _ (some ms) => validModulesList ms

/-- Every element of a container's `modules` array validates as a
source module or as another container. -/
def validModulesList : List RawNode → Bool
  | [] => true
  | m :: ms => (validSource m || validModules m) && validModulesList ms

end

/-- `RWebpackStatsModule`: `t.union([Source, Synthetic, Modules])` — the
type a top-level manifest module is validated against. -/
def validTopModule (n : RawNode) : Bool :=
  validSource n || validSynthetic n || validModules n

/-- `RWebpackStats.modules`: the manifest's top-level module array,
every element validated against `RWebpackStatsModule`. -/
def validStatsModules (ms : List RawNode) : Bool :=
  ms.all validTopModule

mutual

/-- All raw nodes appearing (at any depth) inside some `modules` array
of the given node. -/
def nestedElems : RawNode → List RawNode
  | .mk _ _ _ _ none => []
  | .mk _ _ _ _ (some ms) => nestedElemsList ms

/-- All raw nodes appearing inside `modules` arrays at any depth,
including the listed nodes themselves. -/
def nestedElemsList : List RawNode → List RawNode
  | [] => []
  | m :: ms => m :: (nestedElems m ++ nestedElemsList ms)

end

mutual

theorem flattenNode_eq_emittable (n : ModuleNode) :
    flattenNode n = (emittable n).map preOf := by
  cases n with
  | leaf ident did sz src => simp [flattenNode, emittable, preOf]
  | synthetic ident did sz => simp [flattenNode, emittable, preOf]
  | container ident sz cs =>
      simpa [flattenNode, emittable] using flattenList_eq_emittable cs

theorem flattenList_eq_emittable (ms : List ModuleNode) :
    flattenList ms = (emittableList ms).map preOf := by
  cases ms with
  | nil => simp [flattenList, emittableList]
  | cons n ns =>
      simp only [flattenList, emittableList, List.map_append]
      rw [flattenNode_eq_emittable n, flattenList_eq_emittable ns]

end

mutual

theorem emittable_not_container (n : ModuleNode) :
    ∀ x ∈ emittable n, x.isContainer = false := by
  cases n with
  | leaf ident did sz src =>
      intro x hx
      simp [emittable] at hx
      simp [hx, ModuleNode.isContainer]
  | synthetic ident did sz =>
      intro x hx
      simp [emittable] at hx
      simp [hx, ModuleNode.isContainer]
  | container ident sz cs =>
      simpa [emittable] using emittableList_not_container cs

theorem emittableList_not_container (ms : List ModuleNode) :
    ∀ x ∈ emittableList ms, x.isContainer = false := by
  cases ms with
  | nil => simp [emittableList]
  | cons n ns =>
      intro x hx
      simp only [emittableList, List.mem_append] at hx
      cases hx with
      | inl h => exact emittable_not_container n x h
      | inr h => exact emittableList_not_container ns x h

end

theorem decDigits_val (fuel : Nat) : ∀ n, n ≤ fuel → digitsVal (decDigits fuel n) = n := by
  induction fuel with
  | zero =>
      intro n h
      simp only [decDigits, digitsVal]
      omega
  | succ fuel ih =>
      intro n h
      by_cases hn : n = 0
      · simp [decDigits, hn, digitsVal]
      · have hdiv : n / 10 ≤ fuel := by
          have hlt : n / 10 < n := Nat.div_lt_self (Nat.pos_of_ne_zero hn) (by norm_num)
          omega
        simp only [decDigits, hn, if_false, digitsVal, ih _ hdiv]
        omega

theorem decDigits_lt (fuel : Nat) : ∀ n d, d ∈ decDigits fuel n → d < 10 := by
  induction fuel with
  | zero => intro n d hd; simp [decDigits] at hd
  | succ fuel ih =>
      intro n d hd
      by_cases hn : n = 0
      · simp [decDigits, hn] at hd
      · simp only [decDigits, hn, if_false, List.mem_cons] at hd
        cases hd with
        | inl h => subst h; exact Nat.mod_lt _ (by norm_num)
        | inr h => exact ih _ _ h

theorem digitCharVal_digitChar : ∀ d, d < 10 → digitCharVal (Nat.digitChar d) = d := by
  decide

theorem decStr_recover (n : Nat) :
    digitsVal (((decStr n).data.map digitCharVal).reverse) = n := by
  by_cases hn : n = 0
  · subst hn
    rfl
  · have hdata : (decStr n).data = (decDigits n n).reverse.map Nat.digitChar := by
      simp [decStr, hn]
    rw [hdata, List.map_map]
    have hid : ((decDigits n n).reverse).map (digitCharVal ∘ Nat.digitChar)
        = (decDigits n n).reverse := by
      have := List.map_congr_left
        (l := (decDigits n n).reverse)
        (f := digitCharVal ∘ Nat.digitChar) (g := id)
        (fun d hd => digitCharVal_digitChar d (decDigits_lt n n d (List.mem_reverse.mp hd)))
      simpa using this
    rw [hid, List.reverse_reverse]
    exact decDigits_val n n le_rfl

theorem decStr_inj : Function.Injective decStr := by
  intro m n h
  have hm := decStr_recover m
  rw [h, decStr_recover n] at hm
  exact hm.symm

theorem assignIds_getElem (pms : List PreModule) :
    ∀ k i, (assignIds k pms)[i]? = (pms[i]?).map (toModule (k + i)) := by
  induction pms with
  | nil => intro k i; simp [assignIds]
  | cons pm pms ih =>
      intro k i
      cases i with
      | zero => simp [assignIds]
      | succ j =>
          simp only [assignIds, List.getElem?_cons_succ, ih (k + 1) j]
          have : k + 1 + j = k + (j + 1) := by omega
          rw [this]

theorem assignIds_proj (pms : List PreModule) :
    ∀ k, (assignIds k pms).map (fun m => (m.identifier, m.size))
      = pms.map (fun pm => (pm.identifier, pm.size)) := by
  induction pms with
  | nil => intro k; simp [assignIds]
  | cons pm pms ih => intro k; simp [assignIds, toModule, ih (k + 1)]

theorem assignIds_ids_none (pms : List PreModule)
    (h : ∀ pm ∈ pms, pm.declaredId = none) :
    ∀ k, (assignIds k pms).map Module.id
      = (List.range pms.length).map (fun i => decStr (k + i)) := by
  induction pms with
  | nil => intro k; simp [assignIds]
  | cons pm pms ih =>
      intro k
      have hhd : pm.declaredId = none := h pm (List.mem_cons_self pm pms)
      have htl := ih (fun x hx => h x (List.mem_cons_of_mem pm hx)) (k + 1)
      simp only [assignIds, List.map_cons, toModule, hhd, Option.getD_none,
        List.length_cons, List.range_succ_eq_map, List.map_map, htl]
      congr 1
      apply List.map_congr_left
      intro i _
      simp only [Function.comp, Nat.succ_eq_add_one]
      have : k + 1 + i = k + (i + 1) := by omega
      rw [this]

theorem assignIds_ids_some (pms : List PreModule)
    (h : ∀ pm ∈ pms, pm.declaredId.isSome = true) :
    ∀ k, (assignIds k pms).map Module.id
      = pms.map (fun pm => pm.declaredId.getD "") := by
  induction pms with
  | nil => intro k; simp [assignIds]
  | cons pm pms ih =>
      intro k
      have hhd : pm.declaredId.isSome = true := h pm (List.mem_cons_self pm pms)
      obtain ⟨v, hv⟩ := Option.isSome_iff_exists.mp hhd
      have htl := ih (fun x hx => h x (List.mem_cons_of_mem pm hx)) (k + 1)
      simp [assignIds, toModule, hv, htl]

theorem analyze_sizes_ids (minified gzip : Bool) (ms : List ModuleNode) :
    ((analyze minified gzip ms).sizes).map Module.id
      = (flattenModules ms).map Module.id := by
  simp only [analyze, markDuplicates, List.map_map]
  apply List.map_congr_left
  intro m _
  simp only [Function.comp]
  split <;> rfl

theorem analyze_sizes_proj (minified gzip : Bool) (ms : List ModuleNode) :
    ((analyze minified gzip ms).sizes).map (fun m => (m.identifier, m.size))
      = (flattenModules ms).map (fun m => (m.identifier, m.size)) := by
  simp only [analyze, markDuplicates, List.map_map]
  apply List.map_congr_left
  intro m _
  simp only [Function.comp]
  split <;> rfl

/-- C1: flattening a structured manifest is a depth-first pre-order walk
whose output records are exactly those of the leaf and synthetic nodes,
in pre-order; a container node (one with a nested `modules` array) is
never itself emitted.  In particular one top-level container wrapping
three leaves of sizes 10, 20, 30 flattens to exactly 3 records whose
sizes sum to 60. -/
theorem C1_containers_never_emitted (ms : List ModuleNode) :
    flattenList ms = (emittableList ms).map preOf
    ∧ (∀ n ∈ emittableList ms, n.isContainer = false)
    ∧ (flattenList [ModuleNode.container "pkg" 60
        [ModuleNode.leaf "a.js" none 10 "sa",
         ModuleNode.leaf "b.js" none 20 "sb",
         ModuleNode.leaf "c.js" none 30 "sc"]]).length = 3
    ∧ ((flattenList [ModuleNode.container "pkg" 60
        [ModuleNode.leaf "a.js" none 10 "sa",
         ModuleNode.leaf "b.js" none 20 "sb",
         ModuleNode.leaf "c.js" none 30 "sc"]]).map PreModule.size).sum = 60 := by
  refine ⟨flattenList_eq_emittable ms, emittableList_not_container ms, ?_, ?_⟩
  · simp [flattenList, flattenNode]
  · simp [flattenList, flattenNode]

/-- C1 witness: the general parts instantiated at the scenario manifest —
the leaf `a.js` is among the emitted nodes and is not a container. -/
theorem C1_containers_never_emitted_witness :
    (ModuleNode.leaf "a.js" none 10 "sa") ∈
      emittableList [ModuleNode.container "pkg" 60
        [ModuleNode.leaf "a.js" none 10 "sa",
         ModuleNode.leaf "b.js" none 20 "sb",
         ModuleNode.leaf "c.js" none 30 "sc"]]
    ∧ (ModuleNode.leaf "a.js" none 10 "sa").isContainer = false := by
  have hmem : (ModuleNode.leaf "a.js" none 10 "sa") ∈
      emittableList [ModuleNode.container "pkg" 60
        [ModuleNode.leaf "a.js" none 10 "sa",
         ModuleNode.leaf "b.js" none 20 "sb",
         ModuleNode.leaf "c.js" none 30 "sc"]] := by
    simp [emittableList, emittable]
  exact ⟨hmem,
    (C1_containers_never_emitted
      [ModuleNode.container "pkg" 60
        [ModuleNode.leaf "a.js" none 10 "sa",
         ModuleNode.leaf "b.js" none 20 "sb",
         ModuleNode.leaf "c.js" none 30 "sc"]]).2.1 _ hmem⟩

/-- C2: each emitted Module's `id` is the manifest-declared id verbatim
when present and otherwise the decimal string of its zero-based emission
index; the `sizes` array preserves flattening traversal order (never
re-sorted, so manifest ids may be sparse or out of ascending order); and
ids are unique within one AnalysisResult, for manifests whose declared
ids follow one scheme (all absent, or all present and pairwise
distinct). -/
theorem C2_id_assignment_order_uniqueness (minified gzip : Bool) (ms : List ModuleNode) :
    (∀ (i : Nat) (pm : PreModule), (flattenList ms)[i]? = some pm →
        (((analyze minified gzip ms).sizes).map Module.id)[i]?
          = some (pm.declaredId.getD (decStr i)))
    ∧ ((analyze minified gzip ms).sizes).map (fun m => (m.identifier, m.size))
        = (flattenList ms).map (fun pm => (pm.identifier, pm.size))
    ∧ (((∀ pm ∈ flattenList ms, pm.declaredId = none)
         ∨ ((∀ pm ∈ flattenList ms, pm.declaredId.isSome = true)
             ∧ ((flattenList ms).map PreModule.declaredId).Nodup))
        → (((analyze minified gzip ms).sizes).map Module.id).Nodup) := by
  have hids : ((analyze minified gzip ms).sizes).map Module.id
      = (flattenModules ms).map Module.id := analyze_sizes_ids minified gzip ms
  refine ⟨?_, ?_, ?_⟩
  · intro i pm hpm
    rw [hids]
    simp only [flattenModules, List.getElem?_map, assignIds_getElem, hpm,
      Nat.zero_add]
    simp [toModule]
  · rw [analyze_sizes_proj minified gzip ms, flattenModules, assignIds_proj]
  · intro hvalid
    rw [hids]
    cases hvalid with
    | inl hnone =>
        rw [flattenModules, assignIds_ids_none _ hnone 0]
        apply List.Nodup.map_on _ (List.nodup_range _)
        intro x _ y _ hxy
        have := decStr_inj hxy
        omega
    | inr hsome =>
        rw [flattenModules, assignIds_ids_some _ hsome.1 0]
        have hinj := List.inj_on_of_nodup_map hsome.2
        apply List.Nodup.map_on _ (List.Nodup.of_map _ hsome.2)
        intro x hx y hy hxy
        obtain ⟨vx, hvx⟩ := Option.isSome_iff_exists.mp (hsome.1 x hx)
        obtain ⟨vy, hvy⟩ := Option.isSome_iff_exists.mp (hsome.1 y hy)
        apply hinj hx hy
        rw [hvx, hvy]
        simpa [hvx, hvy] using hxy

/-- C2 witness: a manifest of four leaves whose declared ids are the
sparse, non-ascending-by-position strings of the basic-fixture smoke
test; the hypotheses hold and ids come out unique and in traversal
order. -/
theorem C2_id_assignment_order_uniqueness_witness :
    ((∀ pm ∈ flattenList
        [ModuleNode.leaf "g.js" (some "1") 5 "sg",
         ModuleNode.leaf "m.js" (some "15") 6 "sm",
         ModuleNode.leaf "l.js" (some "36") 7 "sl",
         ModuleNode.leaf "i.js" (some "39") 8 "si"], pm.declaredId.isSome = true)
      ∧ ((flattenList
        [ModuleNode.leaf "g.js" (some "1") 5 "sg",
         ModuleNode.leaf "m.js" (some "15") 6 "sm",
         ModuleNode.leaf "l.js" (some "36") 7 "sl",
         ModuleNode.leaf "i.js" (some "39") 8 "si"]).map PreModule.declaredId).Nodup)
    ∧ (((analyze false false
        [ModuleNode.leaf "g.js" (some "1") 5 "sg",
         ModuleNode.leaf "m.js" (some "15") 6 "sm",
         ModuleNode.leaf "l.js" (some "36") 7 "sl",
         ModuleNode.leaf "i.js" (some "39") 8 "si"]).sizes).map Module.id).Nodup := by
  have hsome : ∀ pm ∈ flattenList
      [ModuleNode.leaf "g.js" (some "1") 5 "sg",
       ModuleNode.leaf "m.js" (some "15") 6 "sm",
       ModuleNode.leaf "l.js" (some "36") 7 "sl",
       ModuleNode.leaf "i.js" (some "39") 8 "si"], pm.declaredId.isSome = true := by
    simp [flattenList, flattenNode]
  have hnodup : ((flattenList
      [ModuleNode.leaf "g.js" (some "1") 5 "sg",
       ModuleNode.leaf "m.js" (some "15") 6 "sm",
       ModuleNode.leaf "l.js" (some "36") 7 "sl",
       ModuleNode.leaf "i.js" (some "39") 8 "si"]).map PreModule.declaredId).Nodup := by
    simp [flattenList, flattenNode]
  exact ⟨⟨hsome, hnodup⟩,
    (C2_id_assignment_order_uniqueness false false
      [ModuleNode.leaf "g.js" (some "1") 5 "sg",
       ModuleNode.leaf "m.js" (some "15") 6 "sm",
       ModuleNode.leaf "l.js" (some "36") 7 "sl",
       ModuleNode.leaf "i.js" (some "39") 8 "si"]).2.2 (Or.inr ⟨hsome, hnodup⟩)⟩

/-- C3: with byte-identical requests, the second cache call returns the
same result and does not invoke the engine; a fingerprint miss runs the
engine once and writes the store; a hit short-circuits to the stored
result. -/
theorem C3_cache_identical_requests (engine : CacheRequest → AnalysisResult)
    (st : List (String × AnalysisResult)) (r : CacheRequest) :
    (cacheCall engine st r).1 = (cacheCall engine (cacheCall engine st r).2.1 r).1
    ∧ (cacheCall engine (cacheCall engine st r).2.1 r).2.2 = 0
    ∧ (st.lookup (fingerprint r) = none →
        (cacheCall engine st r).2.2 = 1
        ∧ (cacheCall engine st r).1 = engine r
        ∧ ((cacheCall engine st r).2.1).lookup (fingerprint r) = some (engine r))
    ∧ (∀ res, st.lookup (fingerprint r) = some res →
        (cacheCall engine st r).1 = res ∧ (cacheCall engine st r).2.2 = 0) := by
  cases h : st.lookup (fingerprint r) with
  | none => simp [cacheCall, h, List.lookup]
  | some res => simp [cacheCall, h]

/-- C3 witness: a concrete cold-then-hot pair on an empty store — the
miss hypothesis holds and the first call computes once and writes the
store. -/
theorem C3_cache_identical_requests_witness :
    (([] : List (String × AnalysisResult)).lookup
        (fingerprint ⟨"sizes", "bundle", false, false⟩) = none)
    ∧ ((cacheCall (fun _ => ⟨[], [], 0⟩) [] ⟨"sizes", "bundle", false, false⟩).2.2 = 1
        ∧ (cacheCall (fun _ => ⟨[], [], 0⟩) [] ⟨"sizes", "bundle", false, false⟩).1
            = (fun (_ : CacheRequest) => (⟨[], [], 0⟩ : AnalysisResult)) ⟨"sizes", "bundle", false, false⟩
        ∧ ((cacheCall (fun _ => ⟨[], [], 0⟩) [] ⟨"sizes", "bundle", false, false⟩).2.1).lookup
            (fingerprint ⟨"sizes", "bundle", false, false⟩)
            = some ((fun (_ : CacheRequest) => (⟨[], [], 0⟩ : AnalysisResult)) ⟨"sizes", "bundle", false, false⟩)) :=
  ⟨rfl, (C3_cache_identical_requests (fun _ => ⟨[], [], 0⟩) []
      ⟨"sizes", "bundle", false, false⟩).2.2.1 rfl⟩

theorem sfRun_results {α : Type} (engine : String → α) :
    ∀ (reqs inflight : List String), (sfRun engine inflight reqs).1 = reqs.map engine := by
  intro reqs
  induction reqs with
  | nil => intro inflight; simp [sfRun]
  | cons fp rest ih =>
      intro inflight
      by_cases h : fp ∈ inflight <;> simp [sfRun, h, ih]

theorem sfRun_count {α : Type} (engine : String → α) :
    ∀ (reqs inflight : List String),
      (sfRun engine inflight reqs).2 = (reqs.toFinset \ inflight.toFinset).card := by
  intro reqs
  induction reqs with
  | nil => intro inflight; simp [sfRun]
  | cons fp rest ih =>
      intro inflight
      by_cases h : fp ∈ inflight
      · have hset : insert fp rest.toFinset \ inflight.toFinset
            = rest.toFinset \ inflight.toFinset := by
          ext x
          by_cases hx : x = fp <;> simp [hx, h]
        simp [sfRun, h, ih, hset]
      · have hset : insert fp rest.toFinset \ inflight.toFinset
            = insert fp (rest.toFinset \ inflight.toFinset) := by
          ext x
          by_cases hx : x = fp <;> simp [hx, h]
        have hcard : (insert fp (rest.toFinset \ inflight.toFinset)).card
            = ((rest.toFinset \ inflight.toFinset).erase fp).card + 1 := by
          by_cases hfp : fp ∈ rest.toFinset \ inflight.toFinset
          · rw [Finset.insert_eq_self.mpr hfp]
            exact (Finset.card_erase_add_one hfp).symm
          · rw [Finset.card_insert_of_not_mem hfp, Finset.erase_eq_of_not_mem hfp]
        simp only [sfRun, h, if_false, ih ((fp :: inflight)), List.toFinset_cons,
          Finset.sdiff_insert, hset, hcard]

/-- C4: a batch of concurrent requests coalesced by the single-flight
discipline starts exactly one engine computation per distinct
fingerprint, and every caller receives the result of that single
in-flight computation for its fingerprint. -/
theorem C4_single_flight_coalescing {α : Type} (engine : String → α)
    (reqs : List String) :
    (singleFlight engine reqs).2 = reqs.toFinset.card
    ∧ (singleFlight engine reqs).1 = reqs.map engine := by
  constructor
  · rw [singleFlight, sfRun_count]
    simp
  · rw [singleFlight, sfRun_results]

theorem parseFragments_error (frags : List Fragment) :
    ∀ (pos : Nat) (e : ParseError), parseFragments pos frags = .error e →
      pos ≤ e.position
      ∧ frags[e.position - pos]? = some (.malformed e.fragment)
      ∧ ∀ j < e.position - pos, ∀ txt, frags[j]? ≠ some (Fragment.malformed txt) := by
  induction frags with
  | nil => intro pos e h; simp [parseFragments] at h
  | cons f rest ih =>
      intro pos e h
      cases f with
      | malformed txt =>
          simp only [parseFragments, Except.error.injEq] at h
          subst h
          refine ⟨le_rfl, ?_, ?_⟩
          · simp
          · intro j hj
            simp only [Nat.sub_self] at hj
            omega
      | wellFormed ident src =>
          simp only [parseFragments] at h
          cases hrec : parseFragments (pos + 1) rest with
          | ok pms => rw [hrec] at h; simp at h
          | error e2 =>
              rw [hrec] at h
              simp only [Except.error.injEq] at h
              subst h
              obtain ⟨hle, hat, hbefore⟩ := ih (pos + 1) e2 hrec
              have hshift : e2.position - pos = (e2.position - (pos + 1)) + 1 := by omega
              refine ⟨by omega, ?_, ?_⟩
              · rw [hshift]
                simpa using hat
              · intro j hj txt
                cases j with
                | zero => simp
                | succ j2 =>
                    simp only [List.getElem?_cons_succ]
                    exact hbefore j2 (by omega) txt

theorem parseFragments_ok (frags : List Fragment) :
    ∀ pos : Nat, (∀ f ∈ frags, f.isMalformed = false) →
      ∃ pms, parseFragments pos frags = .ok pms ∧ pms.length = frags.length := by
  induction frags with
  | nil => intro pos _; exact ⟨[], rfl, rfl⟩
  | cons f rest ih =>
      intro pos h
      cases f with
      | malformed txt =>
          have := h (.malformed txt) (List.mem_cons_self _ _)
          simp [Fragment.isMalformed] at this
      | wellFormed ident src =>
          obtain ⟨pms, hok, hlen⟩ :=
            ih (pos + 1) (fun x hx => h x (List.mem_cons_of_mem _ hx))
          exact ⟨⟨none, ident, src.length, .code, some src⟩ :: pms,
            by simp [parseFragments, hok], by simp [hlen]⟩

/-- C9: malformed input fails with a `ParseError` carrying the offending
fragment's position (the first malformed fragment, never silently
skipped); malformed-free input parses to exactly one record per
fragment, so zero modules is distinguishable from a parse failure; and
an engine error propagates unchanged to every coalesced caller. -/
theorem C9_parse_error_propagation (frags : List Fragment) :
    (∀ e : ParseError, parseFragments 0 frags = .error e →
        frags[e.position]? = some (.malformed e.fragment)
        ∧ ∀ j < e.position, ∀ txt, frags[j]? ≠ some (Fragment.malformed txt))
    ∧ ((∀ f ∈ frags, f.isMalformed = false) →
        ∃ pms, parseFragments 0 frags = .ok pms ∧ pms.length = frags.length)
    ∧ (∀ (reqs : List String) (engineE : String → Except ParseError (List PreModule)),
        (singleFlight engineE reqs).1 = reqs.map engineE) := by
  refine ⟨?_, parseFragments_ok frags 0, ?_⟩
  · intro e he
    obtain ⟨_, hat, hbefore⟩ := parseFragments_error frags 0 e he
    simpa using ⟨hat, hbefore⟩
  · intro reqs engineE
    exact (C4_single_flight_coalescing engineE reqs).2

/-- C9 witness: a two-fragment bundle whose second fragment is
malformed fails with position 1 and that fragment's text; the
propagation conjunct instantiated on a concrete erroring engine. -/
theorem C9_parse_error_propagation_witness :
    (parseFragments 0 [Fragment.wellFormed "a.js" "sa", Fragment.malformed "junk"]
        = .error ⟨1, "junk"⟩)
    ∧ ([Fragment.wellFormed "a.js" "sa", Fragment.malformed "junk"][(1 : Nat)]?
        = some (.malformed "junk"))
    ∧ (singleFlight (fun _ => (Except.error ⟨0, "junk"⟩ : Except ParseError (List PreModule)))
        ["fp", "fp"]).1
      = [Except.error ⟨0, "junk"⟩, Except.error ⟨0, "junk"⟩] := by
  have herr : parseFragments 0 [Fragment.wellFormed "a.js" "sa", Fragment.malformed "junk"]
      = .error ⟨1, "junk"⟩ := by
    simp [parseFragments]
  refine ⟨herr, ?_, ?_⟩
  · exact ((C9_parse_error_propagation
      [Fragment.wellFormed "a.js" "sa", Fragment.malformed "junk"]).1 ⟨1, "junk"⟩ herr).1
  · rw [(C9_parse_error_propagation
      [Fragment.wellFormed "a.js" "sa", Fragment.malformed "junk"]).2.2 ["fp", "fp"]
      (fun _ => (Except.error ⟨0, "junk"⟩ : Except ParseError (List PreModule)))]
    rfl

theorem collapseWsAux_false_nil_iff (l : List Char) :
    collapseWsAux false l = [] ↔ l = [] := by
  cases l with
  | nil => simp [collapseWsAux]
  | cons c cs => by_cases h : c.isWhitespace <;> simp [collapseWsAux, h]

theorem normSource_empty_iff (s : String) : normSource s = "" ↔ s = "" := by
  constructor
  · intro h
    have hdata : collapseWsAux false s.data = [] := by
      have := congrArg String.data h
      simpa [normSource] using this
    have : s.data = [] := (collapseWsAux_false_nil_iff s.data).mp hdata
    exact String.ext (by simpa using this)
  · intro h
    subst h
    rfl

theorem two_le_length_of_mem_of_mem {α : Type} (l : List α) (a b : α)
    (hab : a ≠ b) : a ∈ l → b ∈ l → 2 ≤ l.length := by
  induction l with
  | nil => intro ha _; simp at ha
  | cons c cs ih =>
      intro ha hb
      cases List.mem_cons.mp ha with
      | inl h1 =>
          cases List.mem_cons.mp hb with
          | inl h2 => exact absurd (h1.trans h2.symm) hab
          | inr h2 =>
              have hpos : 0 < cs.length := List.length_pos.mpr (List.ne_nil_of_mem h2)
              simp only [List.length_cons]
              omega
      | inr h1 =>
          cases List.mem_cons.mp hb with
          | inl h2 =>
              have hpos : 0 < cs.length := List.length_pos.mpr (List.ne_nil_of_mem h1)
              simp only [List.length_cons]
              omega
          | inr h2 =>
              have := ih h1 h2
              simp only [List.length_cons]
              omega

theorem mem_dupGroups_iff (ms : List Module) (g : DuplicateGroup) :
    g ∈ dupGroups ms ↔ ∃ k ∈ (ms.filterMap dupKey).dedup,
      2 ≤ (ms.filter (fun m => dupKey m = some k)).length
      ∧ g = ⟨k.1, ms.filter (fun m => dupKey m = some k),
             ((ms.filter (fun m => dupKey m = some k)).length - 1)
               * (((ms.filter (fun m => dupKey m = some k)).head?.map Module.size).getD 0)⟩ := by
  simp only [dupGroups, List.mem_filterMap]
  constructor
  · rintro ⟨k, hk, heq⟩
    by_cases hc : 2 ≤ (ms.filter (fun m => dupKey m = some k)).length
    · rw [if_pos hc] at heq
      exact ⟨k, hk, hc, (Option.some.injEq _ _ ▸ heq).symm⟩
    · rw [if_neg hc] at heq
      exact absurd heq (by simp)
  · rintro ⟨k, hk, hc, hg⟩
    exact ⟨k, hk, by rw [if_pos hc, hg]⟩

/-- C5: two modules of the list land in the same DuplicateGroup exactly
when their normalized sources are byte-identical and their baseNames
match, except that two empty-source modules are never grouped. -/
theorem C5_duplicate_grouping_iff (ms : List Module) (m1 m2 : Module)
    (h1 : m1 ∈ ms) (h2 : m2 ∈ ms) (hne : m1 ≠ m2)
    (s1 s2 : String) (hs1 : m1.source = some s1) (hs2 : m2.source = some s2) :
    (∃ g ∈ dupGroups ms, m1 ∈ g.members ∧ m2 ∈ g.members)
    ↔ (normSource s1 = normSource s2 ∧ m1.baseName = m2.baseName
        ∧ ¬(s1 = "" ∧ s2 = "")) := by
  constructor
  · rintro ⟨g, hg, hm1g, hm2g⟩
    obtain ⟨k, _, _, hgeq⟩ := (mem_dupGroups_iff ms g).mp hg
    rw [hgeq] at hm1g hm2g
    simp only [List.mem_filter, decide_eq_true_eq] at hm1g hm2g
    have hk1 : dupKey m1 = some k := hm1g.2
    have hk2 : dupKey m2 = some k := hm2g.2
    simp only [dupKey, hs1] at hk1
    simp only [dupKey, hs2] at hk2
    by_cases he1 : s1 = ""
    · rw [if_pos he1] at hk1
      exact absurd hk1 (by simp)
    · rw [if_neg he1] at hk1
      by_cases he2 : s2 = ""
      · rw [if_pos he2] at hk2
        exact absurd hk2 (by simp)
      · rw [if_neg he2] at hk2
        have hk12 := hk1.trans hk2.symm
        simp only [Option.some.injEq, Prod.mk.injEq] at hk12
        exact ⟨hk12.2, hk12.1, fun hc => he1 hc.1⟩
  · rintro ⟨hnorm, hbase, hnotboth⟩
    have he1 : s1 ≠ "" := by
      intro hc
      apply hnotboth
      refine ⟨hc, ?_⟩
      rw [hc] at hnorm
      exact (normSource_empty_iff s2).mp (by simpa using hnorm.symm)
    have he2 : s2 ≠ "" := by
      intro hc
      apply hnotboth
      refine ⟨?_, hc⟩
      rw [hc] at hnorm
      exact (normSource_empty_iff s1).mp (by simpa using hnorm)
    have hk1 : dupKey m1 = some (m1.baseName, normSource s1) := by
      simp only [dupKey, hs1, if_neg he1]
    have hk2 : dupKey m2 = some (m1.baseName, normSource s1) := by
      simp only [dupKey, hs2, if_neg he2, hbase, hnorm]
    have hmem1 : m1 ∈ ms.filter (fun m => dupKey m = some (m1.baseName, normSource s1)) :=
      List.mem_filter.mpr ⟨h1, by simp [hk1]⟩
    have hmem2 : m2 ∈ ms.filter (fun m => dupKey m = some (m1.baseName, normSource s1)) :=
      List.mem_filter.mpr ⟨h2, by simp [hk2]⟩
    have hlen : 2 ≤ (ms.filter (fun m => dupKey m = some (m1.baseName, normSource s1))).length :=
      two_le_length_of_mem_of_mem _ m1 m2 hne hmem1 hmem2
    have hkdedup : (m1.baseName, normSource s1) ∈ (ms.filterMap dupKey).dedup :=
      List.mem_dedup.mpr (List.mem_filterMap.mpr ⟨m1, h1, hk1⟩)
    refine ⟨⟨(m1.baseName, normSource s1).1,
      ms.filter (fun m => dupKey m = some (m1.baseName, normSource s1)),
      ((ms.filter (fun m => dupKey m = some (m1.baseName, normSource s1))).length - 1)
        * (((ms.filter (fun m => dupKey m = some (m1.baseName, normSource s1))).head?.map
            Module.size).getD 0)⟩, ?_, hmem1, hmem2⟩
    exact (mem_dupGroups_iff ms _).mpr ⟨(m1.baseName, normSource s1), hkdedup, hlen, rfl⟩

/-- C5 witness: two distinct modules whose sources differ only in
whitespace and whose baseNames match are placed in one group. -/
theorem C5_duplicate_grouping_iff_witness :
    ((⟨"0", "x.js", "x.js", 5, .code, some "x = 1", none, none⟩ : Module)
        ∈ [(⟨"0", "x.js", "x.js", 5, .code, some "x = 1", none, none⟩ : Module),
           ⟨"1", "x.js 1", "x.js", 6, .code, some "x  = 1", none, none⟩]
      ∧ (⟨"1", "x.js 1", "x.js", 6, .code, some "x  = 1", none, none⟩ : Module)
        ∈ [(⟨"0", "x.js", "x.js", 5, .code, some "x = 1", none, none⟩ : Module),
           ⟨"1", "x.js 1", "x.js", 6, .code, some "x  = 1", none, none⟩]
      ∧ normSource "x = 1" = normSource "x  = 1")
    ∧ (∃ g ∈ dupGroups
          [(⟨"0", "x.js", "x.js", 5, .code, some "x = 1", none, none⟩ : Module),
           ⟨"1", "x.js 1", "x.js", 6, .code, some "x  = 1", none, none⟩],
        (⟨"0", "x.js", "x.js", 5, .code, some "x = 1", none, none⟩ : Module) ∈ g.members
        ∧ (⟨"1", "x.js 1", "x.js", 6, .code, some "x  = 1", none, none⟩ : Module) ∈ g.members) := by
  refine ⟨⟨by decide, by decide, by decide⟩, ?_⟩
  exact (C5_duplicate_grouping_iff
      [⟨"0", "x.js", "x.js", 5, .code, some "x = 1", none, none⟩,
       ⟨"1", "x.js 1", "x.js", 6, .code, some "x  = 1", none, none⟩]
      ⟨"0", "x.js", "x.js", 5, .code, some "x = 1", none, none⟩
      ⟨"1", "x.js 1", "x.js", 6, .code, some "x  = 1", none, none⟩
      (by decide) (by decide) (by decide)
      "x = 1" "x  = 1" rfl rfl).mpr ⟨by decide, rfl, by decide⟩

/-- C6: every DuplicateGroup's wasted-bytes value is
`(count - 1) * size` of its first member, and the two-identical-modules
scenario yields one group whose wastedBytes equals one module's size. -/
theorem C6_wasted_bytes_formula (ms : List Module) :
    (∀ g ∈ dupGroups ms, ∃ m0, g.members.head? = some m0
        ∧ g.wastedBytes = (g.members.length - 1) * m0.size)
    ∧ dupGroups
        [(⟨"0", "m.js", "m.js", 19, .code, some "module.exports = 1;", none, none⟩ : Module),
         ⟨"1", "m.js 1", "m.js", 19, .code, some "module.exports = 1;", none, none⟩]
      = [⟨"m.js",
          [⟨"0", "m.js", "m.js", 19, .code, some "module.exports = 1;", none, none⟩,
           ⟨"1", "m.js 1", "m.js", 19, .code, some "module.exports = 1;", none, none⟩], 19⟩] := by
  constructor
  · intro g hg
    obtain ⟨k, _, hlen, hgeq⟩ := (mem_dupGroups_iff ms g).mp hg
    have hne : ms.filter (fun m => dupKey m = some k) ≠ [] := by
      intro hnil
      rw [hnil] at hlen
      simp at hlen
    obtain ⟨m0, rest, hcons⟩ := List.exists_cons_of_ne_nil hne
    refine ⟨m0, ?_, ?_⟩
    · rw [hgeq]
      simp [hcons]
    · rw [hgeq]
      simp [hcons]
  · decide

/-- C6 witness: the general formula instantiated at the scenario group. -/
theorem C6_wasted_bytes_formula_witness :
    ∃ m0, ((⟨"m.js",
        [⟨"0", "m.js", "m.js", 19, .code, some "module.exports = 1;", none, none⟩,
         ⟨"1", "m.js 1", "m.js", 19, .code, some "module.exports = 1;", none, none⟩],
        19⟩ : DuplicateGroup).members).head? = some m0
      ∧ (⟨"m.js",
          [⟨"0", "m.js", "m.js", 19, .code, some "module.exports = 1;", none, none⟩,
           ⟨"1", "m.js 1", "m.js", 19, .code, some "module.exports = 1;", none, none⟩],
          19⟩ : DuplicateGroup).wastedBytes
        = (((⟨"m.js",
            [⟨"0", "m.js", "m.js", 19, .code, some "module.exports = 1;", none, none⟩,
             ⟨"1", "m.js 1", "m.js", 19, .code, some "module.exports = 1;", none, none⟩],
            19⟩ : DuplicateGroup).members).length - 1) * m0.size := by
  apply (C6_wasted_bytes_formula
      [⟨"0", "m.js", "m.js", 19, .code, some "module.exports = 1;", none, none⟩,
       ⟨"1", "m.js 1", "m.js", 19, .code, some "module.exports = 1;", none, none⟩]).1
  rw [(C6_wasted_bytes_formula
      [⟨"0", "m.js", "m.js", 19, .code, some "module.exports = 1;", none, none⟩,
       ⟨"1", "m.js 1", "m.js", 19, .code, some "module.exports = 1;", none, none⟩]).2]
  decide

/-- C7: the `numFilesWithDuplicates` meta counter equals the number of
distinct baseNames having at least one duplicate group; in a concrete
analysis with two duplicate groups sharing one baseName and four
duplicated module entries, the counter is 1, not 4. -/
theorem C7_num_files_with_duplicates (minified gzip : Bool) (ms : List ModuleNode) :
    (analyze minified gzip ms).numFilesWithDuplicates
      = (((analyze minified gzip ms).duplicates).map DuplicateGroup.baseName).toFinset.card
    ∧ (analyze false false
        [ModuleNode.leaf "x.js 1" none 1 "a",
         ModuleNode.leaf "x.js 2" none 1 "a",
         ModuleNode.leaf "x.js 3" none 2 "bb",
         ModuleNode.leaf "x.js 4" none 2 "bb"]).numFilesWithDuplicates = 1
    ∧ ((analyze false false
        [ModuleNode.leaf "x.js 1" none 1 "a",
         ModuleNode.leaf "x.js 2" none 1 "a",
         ModuleNode.leaf "x.js 3" none 2 "bb",
         ModuleNode.leaf "x.js 4" none 2 "bb"]).duplicates).length = 2
    ∧ (((analyze false false
        [ModuleNode.leaf "x.js 1" none 1 "a",
         ModuleNode.leaf "x.js 2" none 1 "a",
         ModuleNode.leaf "x.js 3" none 2 "bb",
         ModuleNode.leaf "x.js 4" none 2 "bb"]).sizes).filter
          (fun m => m.type = ModuleType.duplicate)).length = 4 := by
  refine ⟨?_, by decide, by decide, by decide⟩
  simp only [analyze]
  exact (List.card_toFinset _).symm

/-- C8: a manifest entry with neither `source` nor `modules` flattens to
a record of type `synthetic`; the size estimator with minification
requested gives every sourceless module `minifiedSize = size`; and the
full analysis of such an entry produces exactly one synthetic module
with `minifiedSize = size`. -/
theorem C8_synthetic_no_compression_savings (ident : String) (did : Option String)
    (sz : Nat) (gzip : Bool) :
    flattenNode (ModuleNode.synthetic ident did sz) = [⟨did, ident, sz, .synthetic, none⟩]
    ∧ (∀ m : Module, m.source = none → (estimateModule true gzip m).minifiedSize = some m.size)
    ∧ (analyze true gzip [ModuleNode.synthetic ident did sz]).sizes
        = [{ id := did.getD "0", identifier := ident, baseName := baseNameOf ident,
             size := sz, type := .synthetic, source := none,
             minifiedSize := some sz,
             gzipSize := if gzip then some (gzipLen "") else none }] := by
  refine ⟨rfl, ?_, rfl⟩
  intro m hm
  simp [estimateModule, hm]

/-- C8 witness: the estimator conjunct discharged on a concrete
sourceless module. -/
theorem C8_synthetic_no_compression_savings_witness :
    ((⟨"0", "locale", "locale", 235, .synthetic, none, none, none⟩ : Module).source = none)
    ∧ (estimateModule true false
        ⟨"0", "locale", "locale", 235, .synthetic, none, none, none⟩).minifiedSize
      = some (⟨"0", "locale", "locale", 235, .synthetic, none, none, none⟩ : Module).size :=
  ⟨rfl, (C8_synthetic_no_compression_savings "locale" (some "0") 235 false).2.1
      ⟨"0", "locale", "locale", 235, .synthetic, none, none, none⟩ rfl⟩

theorem validModulesList_mem (ms : List RawNode) (h : validModulesList ms = true) :
    ∀ c ∈ ms, validSource c = true ∨ validModules c = true := by
  induction ms with
  | nil => intro c hc; simp at hc
  | cons m rest ih =>
      intro c hc
      simp only [validModulesList, Bool.and_eq_true, Bool.or_eq_true] at h
      cases List.mem_cons.mp hc with
      | inl heq => subst heq; exact h.1
      | inr hmem => exact ih h.2 c hmem

/-- C10 counterexample: the io-ts union validates a container-shaped
node through the synthetic branch (`t.type` ignores extra fields), so a
manifest whose top-level node nests a synthetic child (neither `source`
nor `modules`) is accepted by the runtime validator even though the
child sits inside a `modules` array — refuting the claim that nested
elements must be source leaves or containers. -/
theorem C10_counterexample :
    validStatsModules [RawNode.mk "container" 10 [] none
        (some [RawNode.mk "inner" 5 [] none none])] = true
    ∧ (RawNode.mk "inner" 5 [] none none) ∈ nestedElemsList
        [RawNode.mk "container" 10 [] none (some [RawNode.mk "inner" 5 [] none none])]
    ∧ (RawNode.mk "inner" 5 [] none none).source = none
    ∧ (RawNode.mk "inner" 5 [] none none).modules = none := by
  refine ⟨rfl, ?_, rfl, rfl⟩
  simp [nestedElemsList, nestedElems]

/-- C10 (amended): for every node accepted by the container validator
`RWebpackStatsModuleModules`, each element of its `modules` array
validates as a source module or as another container — so no synthetic
node (neither `source` nor `modules`) sits directly inside a
container-validated node.  (The original claim fails for the whole
manifest validator because a node with a `modules` array also validates
as synthetic.) -/
theorem C10_container_children_not_synthetic (n : RawNode)
    (h : validModules n = true) :
    ∃ ms, n.modules = some ms
      ∧ ∀ c ∈ ms, (validSource c = true ∨ validModules c = true)
        ∧ (c.source.isSome = true ∨ c.modules.isSome = true) := by
  cases n with
  | mk ident sz chunks src mods =>
      cases mods with
      | none => simp [validModules] at h
      | some ms =>
          simp only [validModules] at h
          refine ⟨ms, rfl, ?_⟩
          intro c hc
          have hval := validModulesList_mem ms h c hc
          refine ⟨hval, ?_⟩
          cases hval with
          | inl hsrc =>
              left
              simpa [validSource] using hsrc
          | inr hmod =>
              right
              cases c with
              | mk i2 s2 ch2 src2 mods2 =>
                  cases mods2 with
                  | none => simp [validModules] at hmod
                  | some _ => simp [RawNode.modules]

/-- C10 witness: the amended theorem instantiated at a container whose
single child is a source leaf. -/
theorem C10_container_children_not_synthetic_witness :
    validModules (RawNode.mk "c" 1 [] none
        (some [RawNode.mk "leaf" 1 [] (some "x") none])) = true
    ∧ ∃ ms, (RawNode.mk "c" 1 [] none
        (some [RawNode.mk "leaf" 1 [] (some "x") none])).modules = some ms
      ∧ ∀ c ∈ ms, (validSource c = true ∨ validModules c = true)
        ∧ (c.source.isSome = true ∨ c.modules.isSome = true) :=
  ⟨rfl, C10_container_children_not_synthetic
    (RawNode.mk "c" 1 [] none (some [RawNode.mk "leaf" 1 [] (some "x") none])) rfl⟩

end Inspectpack
